import Mathlib

/- Verification of the financial-policy chatbot core (chatbot_fixed.py).
   The pieces the claims mention — document data extraction, the recursive
   chunker, vector search, conversation memory, response dispatch and the
   ask() pipeline — are shallowly embedded over `List Char`, and the claimed
   properties are proved about the embedding. -/

namespace FinChat

/-- Text is modelled as a list of characters. -/
abbrev Txt := List Char

/-- ASCII lower-casing of one character (Python `str.lower` on the ASCII range). -/
def lowerChar (c : Char) : Char :=
  if 'A' ≤ c ∧ c ≤ 'Z' then Char.ofNat (c.toNat + 32) else c

/-- Python `text.lower()`. -/
def lowerTxt (t : Txt) : Txt := t.map lowerChar

/-- Helper: `isPref p l` tests whether `p` is a leading segment of `l`. -/
def isPref : Txt → Txt → Bool
  | [], _ => true
  | _ :: _, [] => false
  | a :: p, b :: l => a == b && isPref p l

/-- Python's substring test `p in l`. -/
def isSubstr (p : Txt) : Txt → Bool
  | [] => p.isEmpty
  | c :: rest => isPref p (c :: rest) || isSubstr p rest

/-- Python `any(w in l for w in ws)`. -/
def containsAny (l : Txt) (ws : List Txt) : Bool := ws.any (fun w => isSubstr w l)

/-! ## ConversationMemory -/

/-- Embeds `ConversationMemory.topic_keywords` — the six categories in declaration
    order (a Python dict preserves insertion order). -/
def topicKeywords : List (Txt × List Txt) :=
  [("budget".toList,
    ["budget".toList, "surplus".toList, "deficit".toList, "revenue".toList, "expenses".toList]),
   ("debt".toList,
    ["debt".toList, "borrowing".toList, "interest".toList, "cost".toList, "borrowings".toList]),
   ("infrastructure".toList,
    ["infrastructure".toList, "capital".toList, "construction".toList, "works".toList,
     "projects".toList]),
   ("taxation".toList,
    ["taxation".toList, "tax".toList, "gsp".toList, "burden".toList, "revenue".toList]),
   ("superannuation".toList,
    ["superannuation".toList, "pension".toList, "funding".toList, "liabilities".toList]),
   ("risk".toList,
    ["risk".toList, "assessment".toList, "mitigation".toList, "management".toList,
     "prudent".toList])]

/-- Embeds `sum(1 for keyword in keywords if keyword in text_lower)`. -/
def scoreTopic (kws : List Txt) (tl : Txt) : Nat := kws.countP (fun k => isSubstr k tl)

/-- One step of Python `max(d, key=d.get)`: replace only on a strictly
    larger value, so the earlier entry wins ties. -/
def maxStep (best y : Txt × Nat) : Txt × Nat := if y.2 > best.2 then y else best

/-- Embeds `ConversationMemory._identify_topic`. -/
def identifyTopic (text : Txt) : Txt :=
  let tl := lowerTxt text
  let scored := topicKeywords.filterMap (fun p =>
    let s := scoreTopic p.2 tl
    if s > 0 then some (p.1, s) else none)
  match scored with
  | [] => "general".toList
  | x :: xs => (xs.foldl maxStep x).1

/-- The claim's description of `_identify_topic`: score every category,
    return the first enumeration entry attaining the maximal score, or
    `general` when every score is zero. -/
def identifyTopicSpec (text : Txt) : Txt :=
  let tl := lowerTxt text
  let scores := topicKeywords.map (fun p => (p.1, scoreTopic p.2 tl))
  let mx := (scores.map (fun p => p.2)).foldr max 0
  if mx = 0 then "general".toList
  else
    match scores.find? (fun p => p.2 == mx) with
    | some p => p.1
    | none => "general".toList

/-- One question/response/topic record of the conversation history. -/
structure Interaction where
  question : Txt
  response : Txt
  topic : Txt
deriving DecidableEq

/-- The mutable state of `ConversationMemory`. -/
structure ConversationMemory where
  maxHistory : Nat
  conversationHistory : List Interaction
  currentTopic : Option Txt
deriving DecidableEq

/-- Embeds `ConversationMemory()` as constructed by `FinancialChatbot.__init__`
    (default capacity 10, empty history, no topic). -/
def initialMemory : ConversationMemory := ⟨10, [], none⟩

/-- Python truthiness of `current_topic` (`None` and `""` are falsy). -/
def optTruthy : Option Txt → Bool
  | none => false
  | some t => !t.isEmpty

/-- The stored topic, defaulting to empty (only inspected when truthy). -/
def topicVal : Option Txt → Txt
  | none => []
  | some t => t

/-- Python `topic.replace('_', ' ')`. -/
def underscoreToSpace (t : Txt) : Txt := t.map (fun c => if c = '_' then ' ' else c)

/-- The interaction record built by `ConversationMemory.add_interaction`. -/
def mkInteraction (p : Txt × Txt) : Interaction := ⟨p.1, p.2, identifyTopic p.1⟩

/-- Embeds `ConversationMemory.add_interaction`: append, update the topic, then
    `pop(0)` when the capacity is exceeded. -/
def addInteraction (m : ConversationMemory) (q r : Txt) : ConversationMemory :=
  let i : Interaction := mkInteraction (q, r)
  let h := m.conversationHistory ++ [i]
  { m with
    conversationHistory := if h.length > m.maxHistory then h.drop 1 else h,
    currentTopic := some i.topic }

/-- Folding `add_interaction` over a list of question/response pairs. -/
def recordAll (m : ConversationMemory) (ps : List (Txt × Txt)) : ConversationMemory :=
  ps.foldl (fun acc p => addInteraction acc p.1 p.2) m

/-- Embeds `ConversationMemory.enhance_question`'s vague-continuation phrase list. -/
def vaguePhrases : List Txt :=
  ["tell me more".toList, "what about it".toList, "explain more".toList, "more details".toList]

/-- The anaphoric words tested by `ConversationMemory.enhance_question`. -/
def anaphora : List Txt := ["that".toList, "this".toList, "it".toList]

/-- Embeds `ConversationMemory.enhance_question`.  The Python body returns from a
    nested `if`, which flattens to this if/else-if chain: the vague branch
    fires only when the topic is truthy and not `general`, otherwise control
    falls through to the anaphora test. -/
def enhanceQuestion (m : ConversationMemory) (q : Txt) : Txt :=
  let ql := lowerTxt q
  if containsAny ql vaguePhrases &&
      (optTruthy m.currentTopic && !(topicVal m.currentTopic == "general".toList)) then
    q ++ " about ".toList ++ underscoreToSpace (topicVal m.currentTopic)
  else if containsAny ql anaphora && optTruthy m.currentTopic then
    q ++ " (referring to ".toList ++ underscoreToSpace (topicVal m.currentTopic) ++ ")".toList
  else q

/-- The derived view returned by `ConversationMemory.get_context`. -/
structure ConversationContext where
  currentTopic : Txt
  recentTopics : List Txt
  historyLength : Nat
deriving DecidableEq

/-- Embeds `ConversationMemory.get_context` (`history[-3:]` keeps the last three
    interactions; `current_topic or 'general'` uses Python truthiness). -/
def getContext (m : ConversationMemory) : ConversationContext :=
  { currentTopic :=
      if optTruthy m.currentTopic then topicVal m.currentTopic else "general".toList,
    recentTopics :=
      (m.conversationHistory.drop (m.conversationHistory.length - 3)).map (·.topic),
    historyLength := m.conversationHistory.length }

/-! ## Document processing: `extract_financial_data` fields and chunk records -/

/-- The four fields returned by `DocumentProcessor.extract_financial_data`. -/
structure FinancialData where
  dollarAmounts : List Txt
  percentages : List Txt
  years : List Txt
  keywords : List Txt
deriving DecidableEq

/-- One structured chunk as built by `DocumentProcessor.process_document`. -/
structure ProcessedChunk where
  id : Txt
  content : Txt
  sectionType : Txt
  financialData : FinancialData
  chunkIndex : Nat
  wordCount : Nat
  hasFinancialData : Bool
deriving DecidableEq

/-! ## VectorDatabase -/

/-- The metadata record stored per document by `add_documents`. -/
structure DocMetadata where
  sectionType : Txt
  chunkIndex : Nat
  wordCount : Nat
  hasFinancialData : Bool
  keywords : Txt
deriving DecidableEq

/-- One `(id, embedding, metadata, content)` tuple in the ChromaDB collection. -/
structure StoredDoc where
  id : Txt
  embedding : List ℚ
  metadata : DocMetadata
  content : Txt

/-- Embeds `VectorDatabase` state: the embedding model (an opaque deterministic
    text-to-vector map, per spec §4.3) and the persistent collection. -/
structure VectorDB where
  embed : Txt → List ℚ
  store : List StoredDoc

/-- Embeds `get_collection_info()['document_count']`, i.e. `collection.count()`. -/
def documentCount (db : VectorDB) : Nat := db.store.length

/-- Embeds `VectorDatabase.add_documents`: one embedding per chunk, metadata with
    the first five keywords comma-joined, all appended to the collection. -/
def addDocuments (db : VectorDB) (docs : List ProcessedChunk) : VectorDB :=
  { db with store := db.store ++ docs.map (fun d =>
      { id := d.id
        embedding := db.embed d.content
        metadata :=
          { sectionType := d.sectionType
            chunkIndex := d.chunkIndex
            wordCount := d.wordCount
            hasFinancialData := d.hasFinancialData
            keywords := List.intercalate (",".toList) (d.financialData.keywords.take 5) }
        content := d.content }) }

/-- The add step of `FinancialChatbot._initialize`: documents are added only
    when the collection's `document_count` is `0`. -/
def initAddStep (db : VectorDB) (docs : List ProcessedChunk) : VectorDB :=
  if documentCount db = 0 then addDocuments db docs else db

/-- One formatted search result (`score = 1 - distance`). -/
structure SearchResult where
  content : Txt
  metadata : DocMetadata
  score : ℚ

/-- Modelled from the spec: ChromaDB's `collection.query` is an opaque
    similarity-search collaborator (§1, §4.3); it returns up to `nResults`
    stored entries ordered by non-decreasing distance to the query embedding,
    for the store's distance function `dist`. -/
def queryCollection (dist : List ℚ → List ℚ → ℚ) (db : VectorDB) (qEmb : List ℚ)
    (nResults : Nat) : List (StoredDoc × ℚ) :=
  ((db.store.map (fun d => (d, dist qEmb d.embedding))).insertionSort
    (fun a b => a.2 ≤ b.2)).take nResults

/-- Embeds `VectorDatabase.search`: embed the query, run the store's nearest-
    neighbour query, and format each hit with score `1 - distance`. -/
def search (dist : List ℚ → List ℚ → ℚ) (db : VectorDB) (q : Txt) (nResults : Nat) :
    List SearchResult :=
  (queryCollection dist db (db.embed q) nResults).map
    (fun r => { content := r.1.content, metadata := r.1.metadata, score := 1 - r.2 })

/-! ## Response synthesis: template dispatch (`_create_contextual_response`) -/

/-- The seven response templates of `_create_contextual_response`, in source
    order. -/
inductive RespTemplate
  | budget | debt | infrastructure | taxation | risk | superannuation | general
deriving DecidableEq

/-- Question keywords of the budget branch. -/
def budgetQWords : List Txt := ["budget".toList, "surplus".toList, "deficit".toList]

/-- Question keywords of the debt branch. -/
def debtQWords : List Txt := ["debt".toList, "borrowing".toList, "interest".toList]

/-- Question keywords of the infrastructure branch. -/
def infraQWords : List Txt := ["infrastructure".toList, "capital".toList, "construction".toList]

/-- Question keywords of the taxation branch. -/
def taxQWords : List Txt := ["tax".toList, "taxation".toList, "revenue".toList]

/-- Question keywords of the financial-risk branch. -/
def riskQWords : List Txt :=
  ["risk".toList, "assessment".toList, "mitigation".toList, "management".toList]

/-- Question keywords of the superannuation branch. -/
def superQWords : List Txt := ["superannuation".toList, "pension".toList, "funding".toList]

/-- The template dispatch of `_create_contextual_response`: the if/elif chain
    over the lower-cased question, in source order. -/
def selectTemplate (question : Txt) : RespTemplate :=
  let ql := lowerTxt question
  if containsAny ql budgetQWords then RespTemplate.budget
  else if containsAny ql debtQWords then RespTemplate.debt
  else if containsAny ql infraQWords then RespTemplate.infrastructure
  else if containsAny ql taxQWords then RespTemplate.taxation
  else if containsAny ql riskQWords then RespTemplate.risk
  else if containsAny ql superQWords then RespTemplate.superannuation
  else RespTemplate.general

/-- The dispatch table in source order, for stating first-match-wins. -/
def templateTable : List (RespTemplate × List Txt) :=
  [(RespTemplate.budget, budgetQWords), (RespTemplate.debt, debtQWords),
   (RespTemplate.infrastructure, infraQWords), (RespTemplate.taxation, taxQWords),
   (RespTemplate.risk, riskQWords), (RespTemplate.superannuation, superQWords)]

/-- The claim's reading of the dispatch: the first entry of the ordered table
    whose keyword set matches the question wins; default `general`. -/
def firstMatchTemplate (question : Txt) : RespTemplate :=
  let ql := lowerTxt question
  match templateTable.find? (fun p => containsAny ql p.2) with
  | some p => p.1
  | none => RespTemplate.general

/-- Embeds `_format_budget_response`.  Python joins `set(sources)`; a set's
    iteration order is arbitrary, modelled as first-occurrence order. -/
def formatBudgetResponse (content : Txt) (sources : List Txt) : Txt :=
  let cl := lowerTxt content
  let head := "## 💰 BUDGET ANALYSIS\n\n### Executive Summary:\n".toList
  let deficitPart :=
    if isSubstr ("deficit".toList) cl then
      ("• **2005-06 Budget Position:** Strategic deficit of $91.5m with planned return to surplus\n" ++
       "• **Recovery Strategy:** Efficiency measures implemented to restore balance\n").toList
    else []
  let surplusPart :=
    if isSubstr ("surplus".toList) cl || isSubstr ("economic cycle".toList) cl then
      ("• **Policy Framework:** Balanced budget maintained over complete economic cycle\n" ++
       "• **Historical Performance:** Aggregate surplus of $185.7m (2002-06)\n" ++
       "• **Forward Projections:** $22.0m aggregate surplus forecast (2005-09)\n").toList
    else []
  let metrics :=
    ("\n### Key Financial Metrics:\n```\nPeriod          Operating Result\n" ++
     "2002-03         $154.6m surplus\n2003-04         $70.5m surplus\n" ++
     "2004-05         $52.2m surplus (est)\n2005-06         $91.5m deficit (budget)\n" ++
     "2006-07         $0.9m surplus (forecast)\n2007-08         $39.3m surplus (forecast)\n" ++
     "2008-09         $73.3m surplus (forecast)\n```\n\n").toList
  let strategic :=
    ("### Strategic Context:\n✅ **Economically Sustainable:** Four-year aggregate surplus planned\n" ++
     "✅ **Cash Management:** Reserves reducing to 2006-07, growth forecast 2008-09\n" ++
     "✅ **Debt Control:** No increase in general government borrowings\n\n").toList
  let sourceLine :=
    "📄 **Source:** ".toList ++ List.intercalate (", ".toList) sources.dedup ++ "\n\n".toList
  let note :=
    ("💡 **Policy Note:** The Territory employs counter-cyclical fiscal policy, " ++
     "allowing strategic deficits during economic adjustments while maintaining " ++
     "overall fiscal discipline.").toList
  head ++ (deficitPart ++ surplusPart ++ metrics ++ strategic ++ sourceLine ++ note)

/-- The fixed reply of `_generate_response` when `search_results` is empty. -/
def noInfoMsg : Txt :=
  ("I couldn\x27t find relevant information in the financial policy document " ++
   "for your question.").toList

/-- What `_generate_response` composed with `_create_contextual_response`
    observably does, up to rendering the selected template: either the fixed
    no-information message, or exactly one template applied to the space-
    joined top-2 contents and the per-result sources. -/
inductive GenerateOutcome
  | noInfo
  | rendered (template : RespTemplate) (combined : Txt) (sources : List Txt)
deriving DecidableEq

/-- Embeds `_generate_response` followed by `_create_contextual_response`:
    empty results short-circuit to the fixed message; otherwise
    `combined_content` joins the top two contents with a space and exactly
    one template is dispatched on the (already-enhanced) question. -/
def generateOutcome (question : Txt) (results : List SearchResult) : GenerateOutcome :=
  if results.isEmpty then GenerateOutcome.noInfo
  else
    GenerateOutcome.rendered (selectTemplate question)
      (List.intercalate (" ".toList) ((results.map (·.content)).take 2))
      (results.map (fun r => "Section: ".toList ++ r.metadata.sectionType))

/-! ## Orchestrator: the `ask` pipeline -/

/-- The apology prefix of `FinancialChatbot.ask`'s `except` branch. -/
def apologyPrefix : Txt :=
  "I apologize, but I encountered an error while processing your question: ".toList

/-- The reply `ask` gives when the chatbot is not initialized. -/
def notInitializedMsg : Txt :=
  "Chatbot is not properly initialized. Please check the document path.".toList

/-- The four steps of the `ask` pipeline.  Each may fail — `Except` models a
    raised exception carrying its message — matching the `try` block of
    `FinancialChatbot.ask`, whose steps call the fallible embedding model and
    vector store. -/
structure PipelineSteps where
  enhanceE : ConversationMemory → Txt → Except Txt Txt
  searchE : Txt → Except Txt (List SearchResult)
  generateE : Txt → List SearchResult → Except Txt Txt
  recordE : ConversationMemory → Txt → Txt → Except Txt ConversationMemory

/-- The body of `ask`'s `try` block: enhance, search, generate, record; the
    first raised exception aborts the remaining steps.  The record step runs
    only after a response was generated. -/
def runAskPipeline (s : PipelineSteps) (m : ConversationMemory) (q : Txt) :
    Except Txt (Txt × ConversationMemory) := do
  let enhanced ← s.enhanceE m q
  let results ← s.searchE enhanced
  let response ← s.generateE enhanced results
  let m2 ← s.recordE m q response
  pure (response, m2)

/-- Embeds `FinancialChatbot.ask`: an uninitialized bot answers with a fixed
    message; otherwise the `try` block runs and any exception is caught and
    converted into the apology string embedding the error message, leaving
    the conversation memory exactly as it was. -/
def ask (isInitialized : Bool) (s : PipelineSteps) (m : ConversationMemory) (q : Txt) :
    Txt × ConversationMemory :=
  if !isInitialized then (notInitializedMsg, m)
  else
    match runAskPipeline s m q with
    | Except.ok rm => rm
    | Except.error e => (apologyPrefix ++ e, m)

/-- The record step as the source implements it: `add_interaction` applied
    to the original question and the generated response, never raising. -/
def realRecordStep (m : ConversationMemory) (q r : Txt) : Except Txt ConversationMemory :=
  Except.ok (addInteraction m q r)

/-- A pipeline whose search step raises, for exercising the catch branch. -/
def failingSteps : PipelineSteps :=
  { enhanceE := fun m q => Except.ok (enhanceQuestion m q)
    searchE := fun _ => Except.error ("Search failed".toList)
    generateE := fun _ _ => Except.ok []
    recordE := realRecordStep }

/-! ## Extractor: `extract_financial_data`'s regular-expression families.

Each Python `re.findall` is embedded as a left-to-right scanner that, at each
position, attempts a greedy match of the pattern and resumes after the match
(or one character further on failure) — exactly `re.findall`'s non-
overlapping semantics.  For these patterns a succeeding greedy attempt never
needs to backtrack, so the scanners are deterministic functions.  Scanners
carry a skip counter (characters of the last match still to pass over) so
that recursion is structural on the text. -/

/-- Character class `[\d,]` of the dollar pattern. -/
def isDigitComma (c : Char) : Bool := c.isDigit || c == ','

/-- The optional `\.?` piece: consume one dot if present. -/
def optDot : Txt → Txt × Txt
  | '.' :: r => (['.'], r)
  | r => ([], r)

/-- The optional `[mM]?` piece: consume one magnitude suffix if present. -/
def optMag : Txt → Txt × Txt
  | 'm' :: r => (['m'], r)
  | 'M' :: r => (['M'], r)
  | r => ([], r)

/-- Greedy match of `\$[\d,]+\.?\d*[mM]?` at the head of `l`: the matched
    token and the remaining text.  After `\$[\d,]+` succeeds, every later
    piece can match empty, so greedy consumption equals Python's semantics. -/
def matchDollarAt : Txt → Option (Txt × Txt)
  | [] => none
  | c :: rest =>
    if c = '$' then
      let ds := rest.takeWhile isDigitComma
      if ds.isEmpty then none
      else
        let p1 := optDot (rest.dropWhile isDigitComma)
        let frac := p1.2.takeWhile Char.isDigit
        let p2 := optMag (p1.2.dropWhile Char.isDigit)
        some ('$' :: (ds ++ p1.1 ++ frac ++ p2.1), p2.2)
    else none

/-- The characters a dollar-pattern match can consist of. -/
def inDollarClass (c : Char) : Bool :=
  c == '$' || isDigitComma c || c == '.' || c == 'm' || c == 'M'

/-- Embeds `re.findall` worker for the dollar pattern: a positive counter skips the
    remaining characters of the last match before scanning resumes. -/
def scanDollar : Nat → Txt → List Txt
  | _ + 1, [] => []
  | n + 1, _ :: rest => scanDollar n rest
  | 0, [] => []
  | 0, c :: rest =>
    match matchDollarAt (c :: rest) with
    | some mr => mr.1 :: scanDollar (mr.1.length - 1) rest
    | none => scanDollar 0 rest

/-- Embeds `re.findall(r'\$[\d,]+\.?\d*[mM]?', text)`. -/
def findAllDollar (t : Txt) : List Txt := scanDollar 0 t

/-- Greedy match of `\d+\.?\d*%` at the head of `l`.  A failed greedy
    attempt cannot be rescued by backtracking — a shorter digit run still
    ends at a digit, never at `%` — so this equals Python's semantics. -/
def matchPercentAt (l : Txt) : Option (Txt × Txt) :=
  let ds := l.takeWhile Char.isDigit
  if ds.isEmpty then none
  else
    let p1 := optDot (l.dropWhile Char.isDigit)
    let frac := p1.2.takeWhile Char.isDigit
    match p1.2.dropWhile Char.isDigit with
    | '%' :: r => some (ds ++ p1.1 ++ frac ++ ['%'], r)
    | _ => none

/-- Embeds `re.findall` worker for the percentage pattern. -/
def scanPercent : Nat → Txt → List Txt
  | _ + 1, [] => []
  | n + 1, _ :: rest => scanPercent n rest
  | 0, [] => []
  | 0, c :: rest =>
    match matchPercentAt (c :: rest) with
    | some mr => mr.1 :: scanPercent (mr.1.length - 1) rest
    | none => scanPercent 0 rest

/-- Embeds `re.findall(r'\d+\.?\d*%', text)`. -/
def findAllPercent (t : Txt) : List Txt := scanPercent 0 t

/-- Python's `\w` on ASCII text: letters, digits, underscore. -/
def isWordChar (c : Char) : Bool := c.isAlphanum || c == '_'

/-- Whether the next character (if any) is a word character — the negation
    of a `\b` boundary against the following text. -/
def headIsWord : Txt → Bool
  | [] => false
  | c :: _ => isWordChar c

/-- The `(?:-\d{2})?` continuation of the year pattern together with its
    trailing `\b`. -/
def yearRange : Txt → Option (Txt × Txt)
  | '-' :: e1 :: e2 :: rest2 =>
    if e1.isDigit && e2.isDigit && !headIsWord rest2 then some (['-', e1, e2], rest2)
    else none
  | _ => none

/-- Match of `20\d{2}(?:-\d{2})?\b` at the head of `l` (the leading `\b` is
    the scanner's job).  When the range suffix matches but its boundary
    fails, Python backtracks to the bare four-digit year, whose following
    `-` then satisfies the boundary — hence the fallback structure. -/
def matchYearAt : Txt → Option (Txt × Txt)
  | a :: b :: d1 :: d2 :: rest =>
    if a = '2' && b = '0' && d1.isDigit && d2.isDigit then
      match yearRange rest with
      | some er => some ([a, b, d1, d2] ++ er.1, er.2)
      | none => if headIsWord rest then none else some ([a, b, d1, d2], rest)
    else none
  | _ => none

/-- Embeds `re.findall` worker for the year pattern.  The Boolean records whether
    the previous character was a word character (no `\b` holds there); a
    match's characters are digits, so after a skip the flag is recomputed
    correctly from the skipped characters. -/
def scanYears : Nat → Bool → Txt → List Txt
  | _ + 1, _, [] => []
  | n + 1, _, c :: rest => scanYears n (isWordChar c) rest
  | 0, _, [] => []
  | 0, prevW, c :: rest =>
    if prevW then scanYears 0 (isWordChar c) rest
    else
      match matchYearAt (c :: rest) with
      | some mr => mr.1 :: scanYears (mr.1.length - 1) true rest
      | none => scanYears 0 (isWordChar c) rest

/-- Embeds `re.findall(r'\b20\d{2}(?:-\d{2})?\b', text)`. -/
def findAllYears (t : Txt) : List Txt := scanYears 0 false t

/-- First alternative of a `\b(?:w1|w2|w3)\b` pattern matching at the head
    of `l`, case-insensitively, with its trailing boundary.  The source's
    alternatives never contain one another as leading segments, so the
    first-matching alternative is the regex's match.  (An empty alternative
    never matches; none occurs in the source's patterns.) -/
def matchAltAt : List Txt → Txt → Option (Txt × Txt)
  | [], _ => none
  | w :: ws, l =>
    if !w.isEmpty && (isPref w (lowerTxt l) && !headIsWord (l.drop w.length)) then
      some (l.take w.length, l.drop w.length)
    else matchAltAt ws l

/-- Embeds `re.findall` worker for one keyword family.  All the source's
    alternatives end in letters, so after a skip the word-character flag is
    recomputed correctly from the skipped characters (and is `true` for a
    one-character skip remainder). -/
def scanKeyword (alts : List Txt) : Nat → Bool → Txt → List Txt
  | _ + 1, _, [] => []
  | n + 1, _, c :: rest => scanKeyword alts n (isWordChar c) rest
  | 0, _, [] => []
  | 0, prevW, c :: rest =>
    if prevW then scanKeyword alts 0 (isWordChar c) rest
    else
      match matchAltAt alts (c :: rest) with
      | some mr => mr.1 :: scanKeyword alts (mr.1.length - 1) true rest
      | none => scanKeyword alts 0 (isWordChar c) rest

/-- Embeds `re.findall(pattern, text, re.IGNORECASE)` for one keyword family. -/
def findAllKeyword (alts : List Txt) (t : Txt) : List Txt := scanKeyword alts 0 false t

/-- The five keyword families of `extract_financial_data`, in source order
    (alternatives lower-cased; matching is case-insensitive). -/
def keywordPatterns : List (List Txt) :=
  [["budget".toList, "surplus".toList, "deficit".toList],
   ["debt".toList, "borrowing".toList, "interest".toList],
   ["infrastructure".toList, "capital".toList, "construction".toList],
   ["taxation".toList, "revenue".toList, "gsp".toList],
   ["superannuation".toList, "pension".toList, "funding".toList]]

/-- Embeds `DocumentProcessor.extract_financial_data`.  Python's final
    `list(set(keywords))` deduplicates with arbitrary set order, modelled as
    first-occurrence order. -/
def extractFinancialData (text : Txt) : FinancialData :=
  { dollarAmounts := findAllDollar text
    percentages := findAllPercent text
    years := findAllYears text
    keywords := ((keywordPatterns.map (fun alts => findAllKeyword alts text)).flatten).dedup }

/-! ## Chunker.

`DocumentProcessor` delegates splitting to langchain's
`RecursiveCharacterTextSplitter(chunk_size=1000, chunk_overlap=200,
separators=["\n\n", "\n", ". ", " ", ""])`, an external collaborator.
Modelled from the spec (§4.2): splitting is recursive — the most natural
separator first, pieces still exceeding the size re-split with the next
separator — keeping each separator with the preceding piece so that chunk
cores concatenate back to the document; adjacent small pieces are merged up
to the target size; consecutive chunks share a fixed character overlap,
carried as a prefix of the later chunk. -/

/-- Splitter worker: walk the text, cutting after each occurrence of `sep`
    (the separator stays with the piece before it).  `fuel` only bounds the
    recursion; `fuel = text.length` never runs out. -/
def sksGo (sep : Txt) : Nat → Txt → Txt → List Txt
  | _, acc, [] => if acc.isEmpty then [] else [acc.reverse]
  | 0, acc, t => [acc.reverse ++ t]
  | fuel + 1, acc, c :: rest =>
    if isPref sep (c :: rest) then
      (acc.reverse ++ sep) :: sksGo sep fuel [] ((c :: rest).drop sep.length)
    else sksGo sep fuel (c :: acc) rest

/-- Split on one separator, keeping it attached; the `""` separator splits
    into single characters. -/
def splitKeepSep (sep : Txt) (text : Txt) : List Txt :=
  if sep.isEmpty then text.map (fun c => [c]) else sksGo sep text.length [] text

/-- Greedily merge adjacent pieces while their total stays within `size`
    (the splitter's piece-merging pass, keeping chunks near the target). -/
def mergeGo (size : Nat) (cur : Txt) : List Txt → List Txt
  | [] => [cur]
  | p :: rest =>
    if cur.length + p.length ≤ size then mergeGo size (cur ++ p) rest
    else cur :: mergeGo size p rest

/-- Merge pass entry point. -/
def mergeSmall (size : Nat) : List Txt → List Txt
  | [] => []
  | p :: rest => mergeGo size p rest

/-- Recursive splitting: a text within the size bound is one chunk core;
    otherwise split on the current separator and re-split each piece with
    the remaining separators, merging small pieces at this level. -/
def recSplit (size : Nat) : List Txt → Txt → List Txt
  | [], text => [text]
  | sep :: seps, text =>
    if text.length ≤ size then [text]
    else mergeSmall size (((splitKeepSep sep text).map (recSplit size seps)).flatten)

/-- The separator hierarchy configured in `DocumentProcessor.__init__`. -/
def separators : List Txt := ["\n\n".toList, "\n".toList, ". ".toList, " ".toList, []]

/-- The overlap-free chunk cores for the configured `chunk_size=1000`. -/
def splitCores (text : Txt) : List Txt := recSplit 1000 separators text

/-- The last `ov` characters of a chunk — the fixed character overlap. -/
def lastChars (ov : Nat) (l : Txt) : Txt := l.drop (l.length - ov)

/-- Each chunk after the first is prefixed with the previous core's last
    `ov` characters. -/
def withOverlapGo (ov : Nat) (prev : Txt) : List Txt → List Txt
  | [] => []
  | c :: rest => (lastChars ov prev ++ c) :: withOverlapGo ov c rest

/-- Attach the fixed overlap between consecutive chunks. -/
def withOverlap (ov : Nat) : List Txt → List Txt
  | [] => []
  | c :: rest => c :: withOverlapGo ov c rest

/-- Remove each chunk's known leading overlap (the previous core's last
    `min ov _` characters), recovering the cores. -/
def stripOverlapGo (ov : Nat) (prevCore : Txt) : List Txt → List Txt
  | [] => []
  | c :: rest =>
    let core := c.drop (min ov prevCore.length)
    core :: stripOverlapGo ov core rest

/-- Strip pass entry point. -/
def stripOverlap (ov : Nat) : List Txt → List Txt
  | [] => []
  | c :: rest => c :: stripOverlapGo ov c rest

/-- Embeds `split_text` of the configured splitter: ordered chunk contents with the
    fixed 200-character overlap between consecutive chunks. -/
def splitText (text : Txt) : List Txt := withOverlap 200 (splitCores text)

/-- Embeds `DocumentProcessor._identify_section_type`: a first-match priority chain
    of case-insensitive substring tests. -/
def identifySectionType (text : Txt) : Txt :=
  let tl := lowerTxt text
  if containsAny tl
      ["budget".toList, "surplus".toList, "deficit".toList, "operating result".toList] then
    "budget".toList
  else if containsAny tl ["debt".toList, "borrowing".toList, "interest cost".toList] then
    "debt".toList
  else if containsAny tl ["infrastructure".toList, "capital".toList, "construction".toList] then
    "infrastructure".toList
  else if containsAny tl ["taxation".toList, "tax burden".toList, "gsp".toList] then
    "taxation".toList
  else if containsAny tl ["superannuation".toList, "pension".toList, "funding".toList] then
    "superannuation".toList
  else if containsAny tl ["risk".toList, "assessment".toList, "mitigation".toList] then
    "risk".toList
  else "general".toList

/-- Embeds `len(chunk.split())`: Python's whitespace word count (runs of
    non-whitespace; leading/trailing whitespace ignored). -/
def countWordsGo : Bool → Txt → Nat
  | _, [] => 0
  | inWord, c :: rest =>
    if c.isWhitespace then countWordsGo false rest
    else (if inWord then 0 else 1) + countWordsGo true rest

/-- Python `len(text.split())`. -/
def countWords (t : Txt) : Nat := countWordsGo false t

/-- Decimal rendering of a chunk index. -/
def natToTxt (n : Nat) : Txt := (Nat.repr n).toList

/-- Embeds `DocumentProcessor.process_document` applied to the document's content
    (reading the file is the collaborator's job). -/
def processDocument (content : Txt) : List ProcessedChunk :=
  (splitText content).enum.map (fun ic =>
    let fd := extractFinancialData ic.2
    { id := "chunk_".toList ++ natToTxt ic.1
      content := ic.2
      sectionType := identifySectionType ic.2
      financialData := fd
      chunkIndex := ic.1
      wordCount := countWords ic.2
      hasFinancialData := !fd.dollarAmounts.isEmpty || !fd.percentages.isEmpty })

/-- Eleven distinct question/response pairs, for exercising the capacity. -/
def elevenPairs : List (Txt × Txt) :=
  (List.range 11).map (fun i => ("question ".toList ++ natToTxt i, "response".toList))

/-! ## Lemmas about the text primitives -/

theorem isPref_refl (p : Txt) : isPref p p = true := by
  induction p with
  | nil => rfl
  | cons a p ih => simp [isPref, ih]

theorem isSubstr_refl (p : Txt) : isSubstr p p = true := by
  cases p with
  | nil => rfl
  | cons c r => simp [isSubstr, isPref_refl]

theorem isSubstr_append_self (a p : Txt) : isSubstr p (a ++ p) = true := by
  induction a with
  | nil => simpa using isSubstr_refl p
  | cons c a ih => simp [isSubstr, ih]

theorem isPref_append (p a b : Txt) (h : isPref p a = true) : isPref p (a ++ b) = true := by
  induction p generalizing a with
  | nil => simp [isPref]
  | cons x p ih =>
    cases a with
    | nil => simp [isPref] at h
    | cons y a =>
      simp only [isPref, Bool.and_eq_true] at h ⊢
      exact ⟨h.1, ih a h.2⟩

theorem isSubstr_nil_left (t : Txt) : isSubstr [] t = true := by
  cases t <;> simp [isSubstr, isPref]

theorem isSubstr_append_left (p a b : Txt) (h : isSubstr p a = true) :
    isSubstr p (a ++ b) = true := by
  induction a with
  | nil =>
    simp only [isSubstr, List.isEmpty_iff] at h
    subst h
    simpa using isSubstr_nil_left b
  | cons c a ih =>
    simp only [List.cons_append, isSubstr, Bool.or_eq_true] at h ⊢
    rcases h with h | h
    · exact Or.inl (isPref_append p (c :: a) b h)
    · exact Or.inr (ih h)

theorem isPref_append_drop {p l : Txt} (h : isPref p l = true) :
    p ++ l.drop p.length = l := by
  induction p generalizing l with
  | nil => simp
  | cons x p ih =>
    cases l with
    | nil => simp [isPref] at h
    | cons y l =>
      simp only [isPref, Bool.and_eq_true, beq_iff_eq] at h
      obtain ⟨hxy, hp⟩ := h
      subst hxy
      simp only [List.length_cons, List.cons_append, List.drop_succ_cons, List.cons.injEq,
        true_and]
      exact ih hp

theorem exceptBind_error {α β : Type} (e : Txt) (f : α → Except Txt β) :
    ((Except.error e : Except Txt α) >>= f) = Except.error e := rfl

theorem exceptBind_ok {α β : Type} (a : α) (f : α → Except Txt β) :
    ((Except.ok a : Except Txt α) >>= f) = f a := rfl

/-! ## C1 — `ask` catches pipeline exceptions and embeds the message -/

/-- C1: for every question and Ready (initialized) chatbot, `ask` is a total
    function into response strings; whenever a step of the
    enhance → search → generate → record pipeline raises with message `e`,
    the returned string is the apology prefix followed by `e` — in
    particular it embeds the raised error's message as a substring — and no
    exception propagates. -/
theorem c1_ask_catches_pipeline_errors (s : PipelineSteps) (m : ConversationMemory)
    (q e : Txt) (herr : runAskPipeline s m q = Except.error e) :
    (ask true s m q).1 = apologyPrefix ++ e ∧
      isSubstr e (ask true s m q).1 = true := by
  have hask : ask true s m q = (apologyPrefix ++ e, m) := by
    simp [ask, herr]
  rw [hask]
  exact ⟨rfl, isSubstr_append_self apologyPrefix e⟩

/-- Witness for C1: a pipeline whose search step raises `"Search failed"`. -/
theorem c1_witness :
    runAskPipeline failingSteps initialMemory ("What is the budget?".toList) =
        Except.error ("Search failed".toList) ∧
      (ask true failingSteps initialMemory ("What is the budget?".toList)).1 =
          apologyPrefix ++ "Search failed".toList ∧
      isSubstr ("Search failed".toList)
        (ask true failingSteps initialMemory ("What is the budget?".toList)).1 = true :=
  ⟨rfl, c1_ask_catches_pipeline_errors failingSteps initialMemory
    ("What is the budget?".toList) ("Search failed".toList) rfl⟩

/-! ## C10 — memory is untouched when the pipeline fails before recording -/

/-- C10: if the enhance, search or generate step raises (so `ask` answers
    with the apology), the conversation memory after `ask` is exactly the
    memory before the call — the record step (`add_interaction`, which never
    raises) runs only after a response was generated. -/
theorem c10_ask_atomic_memory (s : PipelineSteps) (m : ConversationMemory) (q e : Txt)
    (herr : (do
        let enhanced ← s.enhanceE m q
        let results ← s.searchE enhanced
        s.generateE enhanced results : Except Txt Txt) = Except.error e) :
    (ask true s m q).2 = m := by
  have hrun : runAskPipeline s m q = Except.error e := by
    unfold runAskPipeline
    cases he : s.enhanceE m q with
    | error a =>
      rw [he] at herr
      simp only [exceptBind_error] at herr ⊢
      simp only [Except.error.injEq] at herr
      rw [herr]
    | ok en =>
      rw [he] at herr
      simp only [exceptBind_ok] at herr ⊢
      cases hs : s.searchE en with
      | error a =>
        rw [hs] at herr
        simp only [exceptBind_error] at herr ⊢
        simp only [Except.error.injEq] at herr
        rw [herr]
      | ok rs =>
        rw [hs] at herr
        simp only [exceptBind_ok] at herr ⊢
        rw [herr]
        simp only [exceptBind_error]
  simp [ask, hrun]

/-- Witness for C10: the failing search of `failingSteps` leaves the fresh
    memory unchanged. -/
theorem c10_witness :
    (ask true failingSteps initialMemory ("hello".toList)).2 = initialMemory :=
  c10_ask_atomic_memory failingSteps initialMemory ("hello".toList)
    ("Search failed".toList) rfl

/-! ## C2 — the initialization add step is idempotent -/

/-- C2: the add step runs only when `document_count` is `0`; against an
    already-populated index it changes nothing (same store, so no vector is
    duplicated and the count is unchanged), and running the step twice
    always equals running it once. -/
theorem c2_init_add_idempotent (db : VectorDB) (docs : List ProcessedChunk) :
    (documentCount db ≠ 0 → initAddStep db docs = db) ∧
      initAddStep (initAddStep db docs) docs = initAddStep db docs ∧
      documentCount (initAddStep (initAddStep db docs) docs) =
        documentCount (initAddStep db docs) := by
  have hskip : ∀ d : VectorDB, documentCount d ≠ 0 → initAddStep d docs = d := by
    intro d hd
    simp [initAddStep, hd]
  have hnil : addDocuments db [] = db := by
    simp [addDocuments]
  have hmain : initAddStep (initAddStep db docs) docs = initAddStep db docs := by
    by_cases h0 : documentCount db = 0
    · by_cases hd : docs = []
      · subst hd
        have hstep : initAddStep db [] = db := by
          unfold initAddStep
          rw [hnil, ite_self]
        rw [hstep, hstep]
      · have h1 : initAddStep db docs = addDocuments db docs := by
          simp [initAddStep, h0]
        have h2 : documentCount (addDocuments db docs) ≠ 0 := by
          simp only [documentCount, addDocuments, List.length_append, List.length_map]
          have hl : 0 < docs.length := List.length_pos.mpr hd
          omega
        rw [h1]
        exact hskip _ h2
    · rw [hskip db h0, hskip db h0]
  exact ⟨hskip db, hmain, by rw [hmain]⟩

/-- Witness for C2: a store already holding one vector is left unchanged. -/
theorem c2_witness :
    initAddStep ⟨fun _ => [], [⟨[], [], ⟨[], 0, 0, false, []⟩, []⟩]⟩ [] =
      (⟨fun _ => [], [⟨[], [], ⟨[], 0, 0, false, []⟩, []⟩]⟩ : VectorDB) :=
  (c2_init_add_idempotent _ _).1 (by decide)

/-! ## C3 — `enhance_question` applies at most one rule, in priority order -/

/-- The flattened control flow of `enhance_question` as one conditional. -/
theorem enhanceQuestion_eq (m : ConversationMemory) (q : Txt) :
    enhanceQuestion m q =
      if containsAny (lowerTxt q) vaguePhrases = true ∧ optTruthy m.currentTopic = true ∧
          (topicVal m.currentTopic == "general".toList) = false then
        q ++ " about ".toList ++ underscoreToSpace (topicVal m.currentTopic)
      else if containsAny (lowerTxt q) anaphora = true ∧ optTruthy m.currentTopic = true then
        q ++ " (referring to ".toList ++ underscoreToSpace (topicVal m.currentTopic) ++
          ")".toList
      else q := by
  by_cases hA : containsAny (lowerTxt q) vaguePhrases = true <;>
    by_cases hB : optTruthy m.currentTopic = true <;>
      by_cases hC : (topicVal m.currentTopic == "general".toList) = true <;>
        by_cases hD : containsAny (lowerTxt q) anaphora = true <;>
          simp [enhanceQuestion, hA, hB, hC, hD]

/-- C3: at most one enhancement rule fires, in priority order — the vague-
    continuation rule (topic set and not `general`) appends the topic name;
    otherwise the anaphora rule (pronoun present and topic set) appends a
    topic-referring clause; otherwise the question is returned unchanged.
    In particular `enhance("tell me more")` with topic `debt` contains the
    original phrase and the word `debt`, and with no prior topic it is the
    identity. -/
theorem c3_enhance_one_rule (m : ConversationMemory) (q : Txt) :
    (containsAny (lowerTxt q) vaguePhrases = true →
      optTruthy m.currentTopic = true →
      topicVal m.currentTopic ≠ "general".toList →
      enhanceQuestion m q =
        q ++ " about ".toList ++ underscoreToSpace (topicVal m.currentTopic)) ∧
    (¬(containsAny (lowerTxt q) vaguePhrases = true ∧ optTruthy m.currentTopic = true ∧
        topicVal m.currentTopic ≠ "general".toList) →
      containsAny (lowerTxt q) anaphora = true →
      optTruthy m.currentTopic = true →
      enhanceQuestion m q =
        q ++ " (referring to ".toList ++ underscoreToSpace (topicVal m.currentTopic) ++
          ")".toList) ∧
    (¬(containsAny (lowerTxt q) vaguePhrases = true ∧ optTruthy m.currentTopic = true ∧
        topicVal m.currentTopic ≠ "general".toList) →
      ¬(containsAny (lowerTxt q) anaphora = true ∧ optTruthy m.currentTopic = true) →
      enhanceQuestion m q = q) ∧
    enhanceQuestion ⟨10, [], some ("debt".toList)⟩ ("tell me more".toList) =
      "tell me more about debt".toList ∧
    isSubstr ("tell me more".toList)
      (enhanceQuestion ⟨10, [], some ("debt".toList)⟩ ("tell me more".toList)) = true ∧
    isSubstr ("debt".toList)
      (enhanceQuestion ⟨10, [], some ("debt".toList)⟩ ("tell me more".toList)) = true ∧
    enhanceQuestion ⟨10, [], none⟩ ("tell me more".toList) = "tell me more".toList := by
  refine ⟨?_, ?_, ?_, by decide, by decide, by decide, by decide⟩
  · intro h1 h2 h3
    rw [enhanceQuestion_eq]
    rw [if_pos ⟨h1, h2, beq_eq_false_iff_ne.mpr h3⟩]
  · intro hno h1 h2
    rw [enhanceQuestion_eq]
    rw [if_neg, if_pos ⟨h1, h2⟩]
    intro hc
    exact hno ⟨hc.1, hc.2.1, beq_eq_false_iff_ne.mp hc.2.2⟩
  · intro hno1 hno2
    rw [enhanceQuestion_eq]
    rw [if_neg, if_neg hno2]
    intro hc
    exact hno1 ⟨hc.1, hc.2.1, beq_eq_false_iff_ne.mp hc.2.2⟩

/-- Witness for C3: with topic `debt`, `"tell me more"` gains the topic. -/
theorem c3_witness :
    containsAny (lowerTxt ("tell me more".toList)) vaguePhrases = true ∧
      enhanceQuestion ⟨10, [], some ("debt".toList)⟩ ("tell me more".toList) =
        "tell me more".toList ++ " about ".toList ++
          underscoreToSpace (topicVal (some ("debt".toList))) :=
  ⟨by decide,
    (c3_enhance_one_rule ⟨10, [], some ("debt".toList)⟩ ("tell me more".toList)).1
      (by decide) (by decide) (by decide)⟩

/-! ## C6 — exactly one response template, first match wins -/

/-- The if/elif chain of `_create_contextual_response` equals first-match
    lookup in the ordered dispatch table. -/
theorem selectTemplate_eq_firstMatch (q : Txt) : selectTemplate q = firstMatchTemplate q := by
  unfold selectTemplate firstMatchTemplate templateTable
  by_cases h1 : containsAny (lowerTxt q) budgetQWords = true <;>
    by_cases h2 : containsAny (lowerTxt q) debtQWords = true <;>
      by_cases h3 : containsAny (lowerTxt q) infraQWords = true <;>
        by_cases h4 : containsAny (lowerTxt q) taxQWords = true <;>
          by_cases h5 : containsAny (lowerTxt q) riskQWords = true <;>
            by_cases h6 : containsAny (lowerTxt q) superQWords = true <;>
              simp [h1, h2, h3, h4, h5, h6, List.find?]

/-- C6: for a non-empty result list exactly one template is selected, by
    first-match over the fixed priority order budget, debt, infrastructure,
    taxation, risk, superannuation, else general; the question
    `"What about the budget deficit?"` selects the budget template, and the
    budget template's headline always contains `"BUDGET"`. -/
theorem c6_template_first_match (q : Txt) (results : List SearchResult)
    (hne : results ≠ []) :
    generateOutcome q results =
        GenerateOutcome.rendered (firstMatchTemplate q)
          (List.intercalate (" ".toList) ((results.map (·.content)).take 2))
          (results.map (fun r => "Section: ".toList ++ r.metadata.sectionType)) ∧
      selectTemplate ("What about the budget deficit?".toList) = RespTemplate.budget ∧
      ∀ content sources,
        isSubstr ("BUDGET".toList) (formatBudgetResponse content sources) = true := by
  refine ⟨?_, by decide, ?_⟩
  · have hne' : results.isEmpty = false := by
      simp [List.isEmpty_iff, hne]
    simp [generateOutcome, hne', selectTemplate_eq_firstMatch]
  · intro content sources
    simp only [formatBudgetResponse]
    exact isSubstr_append_left _ _ _ (by decide)

/-- Witness for C6 at a singleton result list and the scenario question. -/
theorem c6_witness :
    generateOutcome ("What about the budget deficit?".toList)
        [⟨"doc".toList, ⟨"budget".toList, 0, 0, false, []⟩, 1⟩] =
        GenerateOutcome.rendered
          (firstMatchTemplate ("What about the budget deficit?".toList))
          (List.intercalate (" ".toList)
            (([⟨"doc".toList, ⟨"budget".toList, 0, 0, false, []⟩,
                (1 : ℚ)⟩].map (fun r : SearchResult => r.content)).take 2))
          ([⟨"doc".toList, ⟨"budget".toList, 0, 0, false, []⟩, (1 : ℚ)⟩].map
            (fun r : SearchResult => "Section: ".toList ++ r.metadata.sectionType)) ∧
      selectTemplate ("What about the budget deficit?".toList) = RespTemplate.budget ∧
      ∀ content sources,
        isSubstr ("BUDGET".toList) (formatBudgetResponse content sources) = true :=
  c6_template_first_match ("What about the budget deficit?".toList)
    [⟨"doc".toList, ⟨"budget".toList, 0, 0, false, []⟩, 1⟩] (List.cons_ne_nil _ _)

/-! ## C7 — `search` returns at most k results, sorted by score -/

/-- C7: for every query and `k ≥ 0`, `search` yields at most `k` results in
    non-increasing score order, each score being `1 - distance` for a hit of
    the store's nearest-neighbour query; an empty store yields the empty
    list rather than an error. -/
theorem c7_search_top_k (dist : List ℚ → List ℚ → ℚ) (db : VectorDB) (q : Txt) (k : Nat) :
    (search dist db q k).length ≤ k ∧
      List.Sorted (fun a b : SearchResult => b.score ≤ a.score) (search dist db q k) ∧
      (db.store = [] → search dist db q k = []) ∧
      ∀ r ∈ search dist db q k, ∃ p ∈ queryCollection dist db (db.embed q) k,
        r = ⟨p.1.content, p.1.metadata, 1 - p.2⟩ := by
  refine ⟨?_, ?_, ?_, ?_⟩
  · simp only [search, List.length_map, queryCollection]
    exact List.length_take_le _ _
  · have hsorted : List.Sorted (fun a b : StoredDoc × ℚ => a.2 ≤ b.2)
        ((db.store.map (fun d => (d, dist (db.embed q) d.embedding))).insertionSort
          (fun a b => a.2 ≤ b.2)) := by
      haveI ht : IsTotal (StoredDoc × ℚ) (fun a b => a.2 ≤ b.2) :=
        ⟨fun a b => le_total a.2 b.2⟩
      haveI htr : IsTrans (StoredDoc × ℚ) (fun a b => a.2 ≤ b.2) :=
        ⟨fun a b c hab hbc => le_trans hab hbc⟩
      exact List.sorted_insertionSort _ _
    have htake : List.Sorted (fun a b : StoredDoc × ℚ => a.2 ≤ b.2)
        (queryCollection dist db (db.embed q) k) :=
      List.Pairwise.sublist (List.take_sublist _ _) hsorted
    unfold search
    exact List.Pairwise.map _ (fun a b hab => by simpa using sub_le_sub_left hab 1) htake
  · intro h0
    simp [search, queryCollection, h0, List.insertionSort]
  · intro r hr
    simp only [search, List.mem_map] at hr
    obtain ⟨p, hp, hrp⟩ := hr
    exact ⟨p, hp, hrp.symm⟩

/-- Witness for C7 on the empty store. -/
theorem c7_witness :
    ((search (fun _ _ => 0) ⟨fun _ => [], []⟩ ("q".toList) 3).length ≤ 3 ∧
      List.Sorted (fun a b : SearchResult => b.score ≤ a.score)
        (search (fun _ _ => 0) ⟨fun _ => [], []⟩ ("q".toList) 3) ∧
      ((⟨fun _ => [], []⟩ : VectorDB).store = [] →
        search (fun _ _ => 0) ⟨fun _ => [], []⟩ ("q".toList) 3 = []) ∧
      ∀ r ∈ search (fun _ _ => 0) ⟨fun _ => [], []⟩ ("q".toList) 3,
        ∃ p ∈ queryCollection (fun _ _ => 0) ⟨fun _ => [], []⟩
            ((⟨fun _ => [], []⟩ : VectorDB).embed ("q".toList)) 3,
          r = ⟨p.1.content, p.1.metadata, 1 - p.2⟩) :=
  c7_search_top_k (fun _ _ => 0) ⟨fun _ => [], []⟩ ("q".toList) 3

/-! ## C5 — ConversationMemory is a bounded FIFO ring -/

theorem recordAll_cons (m : ConversationMemory) (p : Txt × Txt) (ps : List (Txt × Txt)) :
    recordAll m (p :: ps) = recordAll (addInteraction m p.1 p.2) ps := rfl

theorem drop_append_drop {α : Type} (l B : List α) (d e : Nat) (hd : d ≤ l.length) :
    (l.drop d ++ B).drop e = (l ++ B).drop (d + e) := by
  rw [← List.drop_drop]
  congr 1
  rw [List.drop_append_eq_append_drop]
  have h0 : d - l.length = 0 := by omega
  rw [h0, List.drop_zero]

theorem addInteraction_history (m : ConversationMemory) (q r : Txt)
    (h : m.conversationHistory.length ≤ m.maxHistory) :
    (addInteraction m q r).conversationHistory =
      (m.conversationHistory ++ [mkInteraction (q, r)]).drop
        (m.conversationHistory.length + 1 - m.maxHistory) := by
  simp only [addInteraction, List.length_append, List.length_singleton]
  by_cases hlen : m.conversationHistory.length + 1 > m.maxHistory
  · rw [if_pos hlen]
    congr 1
    omega
  · rw [if_neg hlen]
    have h0 : m.conversationHistory.length + 1 - m.maxHistory = 0 := by omega
    rw [h0, List.drop_zero]

/-- Closed form of repeated recording: the history is the tail of all
    recorded interactions that fits the capacity. -/
theorem recordAll_history (ps : List (Txt × Txt)) : ∀ (m : ConversationMemory),
    m.conversationHistory.length ≤ m.maxHistory →
    (recordAll m ps).conversationHistory =
      (m.conversationHistory ++ ps.map mkInteraction).drop
        (m.conversationHistory.length + ps.length - m.maxHistory) := by
  induction ps with
  | nil =>
    intro m h
    simp only [recordAll, List.foldl_nil, List.map_nil, List.append_nil, List.length_nil]
    have h0 : m.conversationHistory.length + 0 - m.maxHistory = 0 := by omega
    rw [h0, List.drop_zero]
  | cons p ps ih =>
    intro m h
    rw [recordAll_cons]
    have hmax : (addInteraction m p.1 p.2).maxHistory = m.maxHistory := rfl
    have hhist : (addInteraction m p.1 p.2).conversationHistory =
        (m.conversationHistory ++ [mkInteraction p]).drop
          (m.conversationHistory.length + 1 - m.maxHistory) :=
      addInteraction_history m p.1 p.2 h
    have hlen' : (addInteraction m p.1 p.2).conversationHistory.length ≤
        (addInteraction m p.1 p.2).maxHistory := by
      rw [hhist, hmax]
      simp only [List.length_drop, List.length_append, List.length_singleton]
      omega
    rw [ih _ hlen', hhist, hmax]
    rw [drop_append_drop _ _ _ _
      (by simp only [List.length_append, List.length_singleton]; omega)]
    have hassoc : (m.conversationHistory ++ [mkInteraction p]) ++ ps.map mkInteraction =
        m.conversationHistory ++ (p :: ps).map mkInteraction := by
      simp
    rw [hassoc]
    have hL : (addInteraction m p.1 p.2).conversationHistory.length =
        (m.conversationHistory.length + 1) -
          (m.conversationHistory.length + 1 - m.maxHistory) := by
      rw [hhist]
      simp only [List.length_drop, List.length_append, List.length_singleton]
    congr 1
    simp only [hL, List.length_drop, List.length_append, List.length_singleton,
      List.length_cons, List.length_nil]
    omega

/-- The recorded topic after a non-empty batch is the last question's topic. -/
theorem recordAll_currentTopic (ps : List (Txt × Txt)) : ∀ (m : ConversationMemory),
    ps ≠ [] →
    (recordAll m ps).currentTopic = ps.getLast?.map (fun p => identifyTopic p.1) := by
  induction ps with
  | nil => intro m h; exact absurd rfl h
  | cons p ps ih =>
    intro m _
    by_cases hps : ps = []
    · subst hps
      simp [recordAll, List.foldl_cons, List.foldl_nil, addInteraction, mkInteraction]
    · rw [recordAll_cons, ih _ hps]
      obtain ⟨p2, ps2, rfl⟩ := List.exists_cons_of_ne_nil hps
      rw [List.getLast?_cons_cons]

/-- C5: the conversation memory is a bounded FIFO ring of capacity 10:
    every sequence of records keeps the history within the capacity, and
    recording 11 interactions from empty leaves exactly the last 10 — the
    oldest is evicted (absent if not re-recorded) — with `current_topic`
    equal to the topic of the most recent question. -/
theorem c5_memory_fifo (ps : List (Txt × Txt)) :
    (recordAll initialMemory ps).conversationHistory.length ≤ 10 ∧
      (ps.length = 11 →
        (recordAll initialMemory ps).conversationHistory =
            (ps.map mkInteraction).drop 1 ∧
          (recordAll initialMemory ps).conversationHistory.length = 10 ∧
          (getContext (recordAll initialMemory ps)).historyLength = 10 ∧
          (recordAll initialMemory ps).currentTopic =
            ps.getLast?.map (fun p => identifyTopic p.1) ∧
          ∀ p0 rest, ps = p0 :: rest →
            mkInteraction p0 ∉ rest.map mkInteraction →
            mkInteraction p0 ∉ (recordAll initialMemory ps).conversationHistory) := by
  have hbase : initialMemory.conversationHistory.length ≤ initialMemory.maxHistory := by
    simp [initialMemory]
  have hist := recordAll_history ps initialMemory hbase
  simp only [initialMemory, List.nil_append, List.length_nil, Nat.zero_add] at hist
  rw [show ({ maxHistory := 10, conversationHistory := [], currentTopic := none } :
      ConversationMemory) = initialMemory from rfl] at hist
  constructor
  · rw [hist]
    simp only [List.length_drop, List.length_map]
    omega
  · intro h11
    have hdrop : (recordAll initialMemory ps).conversationHistory =
        (ps.map mkInteraction).drop 1 := by
      rw [hist, h11]
    have hlen : (recordAll initialMemory ps).conversationHistory.length = 10 := by
      rw [hdrop]
      simp only [List.length_drop, List.length_map]
      omega
    refine ⟨hdrop, hlen, ?_, ?_, ?_⟩
    · simp only [getContext]
      exact hlen
    · exact recordAll_currentTopic ps initialMemory (by
        intro hnil
        rw [hnil] at h11
        simp at h11)
    · intro p0 rest hps habs
      rw [hdrop, hps]
      simpa using habs

/-- Witness for C5: eleven concrete interactions against capacity 10. -/
theorem c5_witness :
    elevenPairs.length = 11 ∧
      ((recordAll initialMemory elevenPairs).conversationHistory =
          (elevenPairs.map mkInteraction).drop 1 ∧
        (recordAll initialMemory elevenPairs).conversationHistory.length = 10 ∧
        (getContext (recordAll initialMemory elevenPairs)).historyLength = 10 ∧
        (recordAll initialMemory elevenPairs).currentTopic =
          elevenPairs.getLast?.map (fun p => identifyTopic p.1) ∧
        ∀ p0 rest, elevenPairs = p0 :: rest →
          mkInteraction p0 ∉ rest.map mkInteraction →
          mkInteraction p0 ∉ (recordAll initialMemory elevenPairs).conversationHistory) :=
  ⟨by decide, (c5_memory_fifo elevenPairs).2 (by decide)⟩

/-! ## C4 — topic classification: first-declared argmax, `general` default -/

theorem foldl_maxStep_firstMax : ∀ (xs : List (Txt × Nat)) (x : Txt × Nat),
    some (xs.foldl maxStep x) =
      (x :: xs).find? (fun p => p.2 == ((x :: xs).map (fun p => p.2)).foldr max 0) := by
  intro xs
  induction xs with
  | nil =>
    intro x
    simp [List.find?_cons, Nat.max_zero]
  | cons y xs ih =>
    intro x
    rw [List.foldl_cons, ih (maxStep x y)]
    by_cases hxy : y.2 > x.2
    · have hz : maxStep x y = y := by simp [maxStep, hxy]
      rw [hz]
      have hmx : ((x :: y :: xs).map (fun p => p.2)).foldr max 0 =
          ((y :: xs).map (fun p => p.2)).foldr max 0 := by
        simp only [List.map_cons, List.foldr_cons]
        omega
      have hx : (x.2 == ((y :: xs).map (fun p => p.2)).foldr max 0) = false := by
        rw [beq_eq_false_iff_ne]
        simp only [List.map_cons, List.foldr_cons]
        omega
      conv_rhs => rw [List.find?_cons]
      simp only [hmx, hx]
    · have hz : maxStep x y = x := by simp [maxStep, hxy]
      rw [hz]
      have hmx : ((x :: y :: xs).map (fun p => p.2)).foldr max 0 =
          ((x :: xs).map (fun p => p.2)).foldr max 0 := by
        simp only [List.map_cons, List.foldr_cons]
        omega
      by_cases hxe : x.2 = ((x :: xs).map (fun p => p.2)).foldr max 0
      · have hxt : (x.2 == ((x :: xs).map (fun p => p.2)).foldr max 0) = true := by
          rw [beq_iff_eq]
          exact hxe
        conv_lhs => rw [List.find?_cons]
        conv_rhs => rw [List.find?_cons]
        simp only [hmx, hxt]
      · have hxf : (x.2 == ((x :: xs).map (fun p => p.2)).foldr max 0) = false := by
          rw [beq_eq_false_iff_ne]
          exact hxe
        have hyf : (y.2 == ((x :: xs).map (fun p => p.2)).foldr max 0) = false := by
          rw [beq_eq_false_iff_ne]
          simp only [List.map_cons, List.foldr_cons] at hxe ⊢
          omega
        conv_lhs => rw [List.find?_cons]
        conv_rhs => rw [List.find?_cons]
        simp only [hmx, hxf]
        conv_rhs => rw [List.find?_cons]
        simp only [hyf]

theorem foldr_max_filter (l : List (Txt × Nat)) :
    ((l.filter (fun p => decide (0 < p.2))).map (fun p => p.2)).foldr max 0 =
      (l.map (fun p => p.2)).foldr max 0 := by
  induction l with
  | nil => rfl
  | cons p l ih =>
    by_cases hp : 0 < p.2
    · simp [List.filter_cons, hp, ih]
    · simp [List.filter_cons, hp, ih]
      omega

theorem find?_filter_pos (mx : Nat) (hmx : 0 < mx) : ∀ (l : List (Txt × Nat)),
    (l.filter (fun p => decide (0 < p.2))).find? (fun p => p.2 == mx) =
      l.find? (fun p => p.2 == mx) := by
  intro l
  induction l with
  | nil => rfl
  | cons p l ih =>
    by_cases hp : 0 < p.2
    · by_cases hpe : p.2 = mx
      · simp [List.filter_cons, hp, List.find?_cons, hpe, hmx]
      · simp [List.filter_cons, hp, List.find?_cons, beq_eq_false_iff_ne.mpr hpe, ih]
    · have hne : (p.2 == mx) = false := by
        rw [beq_eq_false_iff_ne]
        omega
      simp [List.filter_cons, hp, List.find?_cons, hne, ih]

theorem mem_le_foldr_max (l : List (Txt × Nat)) (p : Txt × Nat) (hp : p ∈ l) :
    p.2 ≤ (l.map (fun r => r.2)).foldr max 0 := by
  induction l with
  | nil => simp at hp
  | cons q l ih =>
    rcases List.mem_cons.mp hp with h | h
    · subst h
      simp only [List.map_cons, List.foldr_cons]
      omega
    · have := ih h
      simp only [List.map_cons, List.foldr_cons]
      omega

theorem filterMap_score_eq (tl : Txt) : ∀ (l : List (Txt × List Txt)),
    l.filterMap (fun p =>
        let s := scoreTopic p.2 tl
        if s > 0 then some (p.1, s) else none) =
      (l.map (fun p => (p.1, scoreTopic p.2 tl))).filter (fun p => decide (0 < p.2)) := by
  intro l
  induction l with
  | nil => rfl
  | cons p l ih =>
    by_cases hp : 0 < scoreTopic p.2 tl
    · simp [List.filterMap_cons, List.filter_cons, hp, ih]
    · simp [List.filterMap_cons, List.filter_cons, hp, ih]

/-- C4: `_identify_topic` is a total deterministic function equal to the
    claim's algorithm — score the six fixed categories, pick the maximum,
    break ties by the first-declared category in enumeration order — and a
    text matching no keyword yields `general`. -/
theorem c4_identify_topic (text : Txt) :
    identifyTopic text = identifyTopicSpec text ∧
      ((∀ p ∈ topicKeywords, scoreTopic p.2 (lowerTxt text) = 0) →
        identifyTopic text = "general".toList) := by
  have hmain : identifyTopic text = identifyTopicSpec text := by
    simp only [identifyTopic, identifyTopicSpec]
    rw [filterMap_score_eq (lowerTxt text) topicKeywords]
    cases hscored : (topicKeywords.map
        (fun p => (p.1, scoreTopic p.2 (lowerTxt text)))).filter
          (fun p => decide (0 < p.2)) with
    | nil =>
      have hmx : ((topicKeywords.map
          (fun p => (p.1, scoreTopic p.2 (lowerTxt text)))).map
            (fun p => p.2)).foldr max 0 = 0 := by
        rw [← foldr_max_filter, hscored]
        rfl
      rw [hmx]
      simp
    | cons x xs =>
      have hmem : x ∈ (topicKeywords.map
          (fun p => (p.1, scoreTopic p.2 (lowerTxt text)))).filter
            (fun p => decide (0 < p.2)) := by
        rw [hscored]
        exact List.mem_cons_self _ _
      have hxpos : 0 < x.2 := by
        have := List.of_mem_filter hmem
        simpa using this
      have hmx : ((x :: xs).map (fun p => p.2)).foldr max 0 =
          ((topicKeywords.map
            (fun p => (p.1, scoreTopic p.2 (lowerTxt text)))).map
              (fun p => p.2)).foldr max 0 := by
        rw [← hscored, foldr_max_filter]
      have hmxpos : 0 < ((topicKeywords.map
          (fun p => (p.1, scoreTopic p.2 (lowerTxt text)))).map
            (fun p => p.2)).foldr max 0 := by
        have hle := mem_le_foldr_max _ x (List.mem_of_mem_filter hmem)
        omega
      have hfold := foldl_maxStep_firstMax xs x
      rw [hmx] at hfold
      rw [← hscored] at hfold
      rw [find?_filter_pos _ hmxpos] at hfold
      rw [if_neg (by omega)]
      cases hfind : (topicKeywords.map
          (fun p => (p.1, scoreTopic p.2 (lowerTxt text)))).find?
            (fun p => p.2 == ((topicKeywords.map
              (fun p => (p.1, scoreTopic p.2 (lowerTxt text)))).map
                (fun p => p.2)).foldr max 0) with
      | none =>
        rw [hfind] at hfold
        simp at hfold
      | some pr =>
        rw [hfind] at hfold
        simp only [Option.some.injEq] at hfold
        show (List.foldl maxStep x xs).1 = pr.1
        rw [hfold]
  refine ⟨hmain, ?_⟩
  intro hall
  rw [hmain]
  simp only [identifyTopicSpec]
  have hmx : ((topicKeywords.map
      (fun p => (p.1, scoreTopic p.2 (lowerTxt text)))).map
        (fun p => p.2)).foldr max 0 = 0 := by
    have : ∀ n ∈ (topicKeywords.map
        (fun p => (p.1, scoreTopic p.2 (lowerTxt text)))).map (fun p => p.2), n = 0 := by
      intro n hn
      simp only [List.map_map, List.mem_map] at hn
      obtain ⟨p, hp, hpn⟩ := hn
      rw [← hpn]
      exact hall p hp
    revert this
    generalize ((topicKeywords.map
        (fun p => (p.1, scoreTopic p.2 (lowerTxt text)))).map (fun p => p.2)) = ns
    intro hz
    induction ns with
    | nil => rfl
    | cons n ns ih =>
      simp only [List.foldr_cons]
      rw [hz n (List.mem_cons_self _ _), ih (fun k hk => hz k (List.mem_cons_of_mem _ hk))]
      omega
  rw [hmx]
  simp

/-- Witness for C4 on a text with no keyword matches. -/
theorem c4_witness :
    identifyTopic ("hello".toList) = identifyTopicSpec ("hello".toList) ∧
      identifyTopic ("hello".toList) = "general".toList :=
  ⟨(c4_identify_topic ("hello".toList)).1, (c4_identify_topic ("hello".toList)).2 (by decide)⟩

/-! ## C8 — chunking is order-preserving and reconstructs the document -/

theorem sksGo_flatten (sep : Txt) : ∀ (fuel : Nat) (acc t : Txt),
    (sksGo sep fuel acc t).flatten = acc.reverse ++ t := by
  intro fuel
  induction fuel with
  | zero =>
    intro acc t
    cases t with
    | nil =>
      by_cases h : acc.isEmpty
      · simp [sksGo, h, List.isEmpty_iff.mp h]
      · simp [sksGo, h]
    | cons c rest => simp [sksGo]
  | succ fuel ih =>
    intro acc t
    cases t with
    | nil =>
      by_cases h : acc.isEmpty
      · simp [sksGo, h, List.isEmpty_iff.mp h]
      · simp [sksGo, h]
    | cons c rest =>
      simp only [sksGo]
      by_cases hp : isPref sep (c :: rest) = true
      · rw [if_pos hp]
        simp only [List.flatten_cons]
        rw [ih]
        simp only [List.reverse_nil, List.nil_append, List.append_assoc]
        congr 1
        exact isPref_append_drop hp
      · rw [if_neg hp]
        rw [ih]
        simp

theorem flatten_map_singleton (t : Txt) : (t.map (fun c => [c])).flatten = t := by
  induction t <;> simp_all

theorem splitKeepSep_flatten (sep text : Txt) : (splitKeepSep sep text).flatten = text := by
  unfold splitKeepSep
  by_cases h : sep.isEmpty
  · rw [if_pos h]
    exact flatten_map_singleton text
  · rw [if_neg h]
    simpa using sksGo_flatten sep text.length [] text

theorem mergeGo_flatten (size : Nat) : ∀ (rest : List Txt) (cur : Txt),
    (mergeGo size cur rest).flatten = cur ++ rest.flatten := by
  intro rest
  induction rest with
  | nil =>
    intro cur
    simp [mergeGo]
  | cons p rest ih =>
    intro cur
    simp only [mergeGo]
    by_cases h : cur.length + p.length ≤ size
    · rw [if_pos h, ih]
      simp
    · rw [if_neg h]
      simp [ih]

theorem mergeSmall_flatten (size : Nat) (l : List Txt) :
    (mergeSmall size l).flatten = l.flatten := by
  cases l with
  | nil => rfl
  | cons p rest => simp [mergeSmall, mergeGo_flatten]

theorem flatten_flatten_map (f : Txt → List Txt) : ∀ (ps : List Txt),
    (∀ p ∈ ps, (f p).flatten = p) → ((ps.map f).flatten).flatten = ps.flatten := by
  intro ps
  induction ps with
  | nil =>
    intro _
    rfl
  | cons p ps ih =>
    intro h
    simp only [List.map_cons, List.flatten_cons, List.flatten_append]
    rw [h p (List.mem_cons_self _ _), ih (fun q hq => h q (List.mem_cons_of_mem _ hq))]

theorem recSplit_flatten (size : Nat) : ∀ (seps : List Txt) (text : Txt),
    (recSplit size seps text).flatten = text := by
  intro seps
  induction seps with
  | nil =>
    intro text
    simp [recSplit]
  | cons sep seps ih =>
    intro text
    rw [recSplit]
    by_cases h : text.length ≤ size
    · rw [if_pos h]
      simp
    · rw [if_neg h]
      rw [mergeSmall_flatten, flatten_flatten_map _ _ (fun p _ => ih p)]
      exact splitKeepSep_flatten sep text

theorem lastChars_length (ov : Nat) (l : Txt) : (lastChars ov l).length = min ov l.length := by
  simp only [lastChars, List.length_drop]
  omega

theorem stripGo_withGo (ov : Nat) : ∀ (rest : List Txt) (prev : Txt),
    stripOverlapGo ov prev (withOverlapGo ov prev rest) = rest := by
  intro rest
  induction rest with
  | nil =>
    intro prev
    rfl
  | cons c rest ih =>
    intro prev
    simp only [withOverlapGo, stripOverlapGo]
    have hdrop : (lastChars ov prev ++ c).drop (min ov prev.length) = c := by
      rw [← lastChars_length ov prev]
      exact List.drop_left _ _
    rw [hdrop, ih]

theorem stripOverlap_withOverlap (ov : Nat) (l : List Txt) :
    stripOverlap ov (withOverlap ov l) = l := by
  cases l with
  | nil => rfl
  | cons c rest => simp [withOverlap, stripOverlap, stripGo_withGo]

/-- C8: chunking preserves source order and loses nothing — the overlap-free
    chunk cores concatenate back to the document in original order, the
    produced chunk contents are the cores with the fixed 200-character
    overlap attached between consecutive chunks, stripping that overlap
    recovers the cores, and `process_document` keeps the chunk contents in
    exactly this order. -/
theorem c8_chunking_order_preserving (doc : Txt) :
    (splitCores doc).flatten = doc ∧
      splitText doc = withOverlap 200 (splitCores doc) ∧
      stripOverlap 200 (splitText doc) = splitCores doc ∧
      (processDocument doc).map (fun c => c.content) = splitText doc := by
  refine ⟨recSplit_flatten 1000 separators doc, rfl, stripOverlap_withOverlap 200 _, ?_⟩
  simp only [processDocument, List.map_map]
  show List.map Prod.snd (splitText doc).enum = splitText doc
  exact List.enum_map_snd (splitText doc)

/-! ## C9 — the extractor is total; `"$185.7m"` is always found -/

theorem optDot_append (l : Txt) : (optDot l).1 ++ (optDot l).2 = l := by
  unfold optDot
  split <;> simp_all

theorem optMag_append (l : Txt) : (optMag l).1 ++ (optMag l).2 = l := by
  unfold optMag
  split <;> simp_all

theorem optDot_fst_mem {l : Txt} {c : Char} (h : c ∈ (optDot l).1) : c = '.' := by
  revert h
  unfold optDot
  split <;> simp_all

theorem optMag_fst_mem {l : Txt} {c : Char} (h : c ∈ (optMag l).1) : c = 'm' ∨ c = 'M' := by
  revert h
  unfold optMag
  split <;> simp_all

theorem dollarBody_eq (rest : Txt) :
    rest.takeWhile isDigitComma ++
      ((optDot (rest.dropWhile isDigitComma)).1 ++
        ((optDot (rest.dropWhile isDigitComma)).2.takeWhile Char.isDigit ++
          ((optMag ((optDot (rest.dropWhile isDigitComma)).2.dropWhile Char.isDigit)).1 ++
           (optMag ((optDot (rest.dropWhile isDigitComma)).2.dropWhile Char.isDigit)).2))) =
      rest := by
  rw [optMag_append, List.takeWhile_append_dropWhile, optDot_append,
    List.takeWhile_append_dropWhile]

/-- A successful dollar match splits its input: `l = match ++ rest`. -/
theorem matchDollarAt_append {l m r : Txt} (h : matchDollarAt l = some (m, r)) :
    l = m ++ r := by
  cases l with
  | nil => simp [matchDollarAt] at h
  | cons c rest =>
    simp only [matchDollarAt] at h
    by_cases hc : c = '$'
    · simp only [hc, if_true] at h
      by_cases hds : (rest.takeWhile isDigitComma).isEmpty
      · simp [hds] at h
      · simp only [hds, if_false, Option.some.injEq, Prod.mk.injEq, Bool.false_eq_true] at h
        obtain ⟨hm, hr⟩ := h
        subst hc
        rw [← hm, ← hr]
        simp only [List.cons_append, List.cons.injEq, true_and, List.append_assoc]
        exact (dollarBody_eq rest).symm
    · simp [hc] at h

/-- Every character of a dollar match lies in the pattern's character set;
    in particular no letter other than `m`/`M` can occur inside a match. -/
theorem matchDollarAt_class {l m r : Txt} (h : matchDollarAt l = some (m, r)) :
    ∀ c ∈ m, inDollarClass c = true := by
  cases l with
  | nil => simp [matchDollarAt] at h
  | cons c₀ rest =>
    simp only [matchDollarAt] at h
    by_cases hc : c₀ = '$'
    · simp only [hc, if_true] at h
      by_cases hds : (rest.takeWhile isDigitComma).isEmpty
      · simp [hds] at h
      · simp only [hds, if_false, Option.some.injEq, Prod.mk.injEq, Bool.false_eq_true] at h
        obtain ⟨hm, _⟩ := h
        intro c hcm
        rw [← hm] at hcm
        rcases List.mem_cons.mp hcm with h1 | hrest
        · subst h1
          rfl
        · rcases List.mem_append.mp hrest with hl | h5
          · rcases List.mem_append.mp hl with hll | h4
            · rcases List.mem_append.mp hll with h2 | h3
              · have := List.mem_takeWhile_imp h2
                simp [inDollarClass, this]
              · have := optDot_fst_mem h3
                simp [inDollarClass, this]
            · have := List.mem_takeWhile_imp h4
              simp [inDollarClass, isDigitComma, this]
          · rcases optMag_fst_mem h5 with h | h <;> simp [inDollarClass, h]
    · simp [hc] at h

/-- A dollar match is never the empty token. -/
theorem matchDollarAt_fst_length {l m r : Txt} (h : matchDollarAt l = some (m, r)) :
    1 ≤ m.length := by
  cases l with
  | nil => simp [matchDollarAt] at h
  | cons c rest =>
    simp only [matchDollarAt] at h
    by_cases hc : c = '$'
    · simp only [hc, if_true] at h
      by_cases hds : (rest.takeWhile isDigitComma).isEmpty
      · simp [hds] at h
      · simp only [hds, if_false, Option.some.injEq, Prod.mk.injEq, Bool.false_eq_true] at h
        rw [← h.1]
        simp
    · simp [hc] at h

theorem scanDollar_skip : ∀ (n : Nat) (l : Txt), scanDollar n l = scanDollar 0 (l.drop n) := by
  intro n
  induction n with
  | zero =>
    intro l
    rw [List.drop_zero]
  | succ n ih =>
    intro l
    cases l with
    | nil => rfl
    | cons c rest =>
      show scanDollar n rest = scanDollar 0 ((c :: rest).drop (n + 1))
      rw [List.drop_succ_cons]
      exact ih rest

theorem scanDollar_zero_cons (c : Char) (rest : Txt) :
    scanDollar 0 (c :: rest) =
      match matchDollarAt (c :: rest) with
      | some mr => mr.1 :: scanDollar (mr.1.length - 1) rest
      | none => scanDollar 0 rest := rfl

theorem findAllDollar_cons_none (c : Char) (rest : Txt)
    (h : matchDollarAt (c :: rest) = none) :
    findAllDollar (c :: rest) = findAllDollar rest := by
  show scanDollar 0 (c :: rest) = scanDollar 0 rest
  rw [scanDollar_zero_cons, h]

theorem findAllDollar_cons_some (c : Char) (rest m r : Txt)
    (h : matchDollarAt (c :: rest) = some (m, r)) :
    findAllDollar (c :: rest) = m :: findAllDollar r := by
  have happ := matchDollarAt_append h
  have hm1 : 1 ≤ m.length := matchDollarAt_fst_length h
  show scanDollar 0 (c :: rest) = m :: scanDollar 0 r
  rw [scanDollar_zero_cons, h]
  show m :: scanDollar (m.length - 1) rest = m :: scanDollar 0 r
  rw [scanDollar_skip]
  have hrr : rest.drop (m.length - 1) = r := by
    have h2 : r = (m ++ r).drop m.length := (List.drop_left _ _).symm
    rw [h2, ← happ]
    obtain ⟨k, hk⟩ : ∃ k, m.length = k + 1 := ⟨m.length - 1, by omega⟩
    rw [hk, List.drop_succ_cons]
    congr 1
  rw [hrr]

/-- Scanning past `"surplus of "` — eleven non-matching positions — the
    dollar token is taken whole and scanning resumes after it. -/
theorem findAllDollar_head_eq (t2 : Txt) :
    findAllDollar ("surplus of $185.7m".toList ++ t2) =
      "$185.7m".toList :: findAllDollar t2 := rfl

theorem findAllDollar_no_dollar : ∀ (t : Txt), (∀ c ∈ t, c ≠ '$') → findAllDollar t = [] := by
  intro t
  induction t with
  | nil =>
    intro _
    rfl
  | cons c rest ih =>
    intro h
    have hc : c ≠ '$' := h c (List.mem_cons_self _ _)
    have hnone : matchDollarAt (c :: rest) = none := by
      simp [matchDollarAt, hc]
    rw [findAllDollar_cons_none _ _ hnone]
    exact ih (fun d hd => h d (List.mem_cons_of_mem _ hd))

theorem findAllDollar_finds_aux : ∀ (n : Nat) (t1 t2 : Txt), t1.length ≤ n →
    "$185.7m".toList ∈ findAllDollar (t1 ++ ("surplus of $185.7m".toList ++ t2)) := by
  intro n
  induction n with
  | zero =>
    intro t1 t2 h
    have h0 : t1 = [] := by
      cases t1 with
      | nil => rfl
      | cons a b => simp at h
    subst h0
    rw [List.nil_append, findAllDollar_head_eq]
    exact List.mem_cons_self _ _
  | succ n ih =>
    intro t1 t2 h
    cases t1 with
    | nil =>
      rw [List.nil_append, findAllDollar_head_eq]
      exact List.mem_cons_self _ _
    | cons c t1' =>
      rw [List.cons_append]
      cases hm : matchDollarAt (c :: (t1' ++ ("surplus of $185.7m".toList ++ t2))) with
      | none =>
        rw [findAllDollar_cons_none _ _ hm]
        refine ih t1' t2 ?_
        simp only [List.length_cons] at h
        omega
      | some mr =>
        obtain ⟨m, r⟩ := mr
        rw [findAllDollar_cons_some _ _ _ _ hm]
        have happ := matchDollarAt_append hm
        have hclass := matchDollarAt_class hm
        have hm1 : 1 ≤ m.length := matchDollarAt_fst_length hm
        by_cases hlen : m.length ≤ (c :: t1').length
        · have hr : r = (c :: t1').drop m.length ++ ("surplus of $185.7m".toList ++ t2) := by
            calc r = (m ++ r).drop m.length := (List.drop_left _ _).symm
              _ = ((c :: t1') ++ ("surplus of $185.7m".toList ++ t2)).drop m.length := by
                  rw [List.cons_append, ← happ]
              _ = (c :: t1').drop m.length ++
                  ("surplus of $185.7m".toList ++ t2).drop (m.length - (c :: t1').length) :=
                  List.drop_append_eq_append_drop
              _ = (c :: t1').drop m.length ++ ("surplus of $185.7m".toList ++ t2) := by
                  have hz : m.length - (c :: t1').length = 0 := by omega
                  rw [hz, List.drop_zero]
          rw [hr]
          refine List.mem_cons_of_mem _ (ih ((c :: t1').drop m.length) t2 ?_)
          simp only [List.length_drop, List.length_cons] at h ⊢
          omega
        · exfalso
          push_neg at hlen
          have hX : "surplus of $185.7m".toList ++ t2 =
              m.drop (c :: t1').length ++ r.drop ((c :: t1').length - m.length) := by
            calc "surplus of $185.7m".toList ++ t2
                = ((c :: t1') ++ ("surplus of $185.7m".toList ++ t2)).drop (c :: t1').length :=
                  (List.drop_left _ _).symm
              _ = (m ++ r).drop (c :: t1').length := by
                  rw [List.cons_append, ← happ]
              _ = m.drop (c :: t1').length ++ r.drop ((c :: t1').length - m.length) :=
                  List.drop_append_eq_append_drop
          have hz : (c :: t1').length - m.length = 0 := by omega
          rw [hz, List.drop_zero] at hX
          have hne : m.drop (c :: t1').length ≠ [] := by
            intro hnil
            have := congrArg List.length hnil
            simp only [List.length_drop, List.length_nil] at this
            omega
          obtain ⟨hd, tl, hdt⟩ := List.exists_cons_of_ne_nil hne
          rw [hdt] at hX
          have hX2 : 's' :: ("urplus of $185.7m".toList ++ t2) = hd :: (tl ++ r) := hX
          have hhd : hd = 's' := by
            injection hX2 with hh _
            exact hh.symm
          have hmem : hd ∈ m := List.drop_subset _ _ (hdt ▸ List.mem_cons_self hd tl)
          have hcl := hclass hd hmem
          rw [hhd] at hcl
          exact absurd hcl (by decide)

/-- C9: `extract_financial_data` is a total function returning the four
    fields; any text containing `"surplus of $185.7m"` yields a
    `dollar_amounts` list containing exactly the token `"$185.7m"`; with no
    `$` at all the `dollar_amounts` field is empty, and on the empty text
    every field is the empty sequence. -/
theorem c9_extractor (t1 t2 : Txt) :
    "$185.7m".toList ∈
        (extractFinancialData (t1 ++ ("surplus of $185.7m".toList ++ t2))).dollarAmounts ∧
      (∀ text : Txt, (∀ c ∈ text, c ≠ '$') →
        (extractFinancialData text).dollarAmounts = []) ∧
      extractFinancialData [] = ⟨[], [], [], []⟩ := by
  refine ⟨?_, ?_, rfl⟩
  · show "$185.7m".toList ∈ findAllDollar (t1 ++ ("surplus of $185.7m".toList ++ t2))
    exact findAllDollar_finds_aux t1.length t1 t2 (le_refl _)
  · intro text h
    show findAllDollar text = []
    exact findAllDollar_no_dollar text h

/-- Witness for C9 on a concrete surrounding text and a dollar-free text. -/
theorem c9_witness :
    "$185.7m".toList ∈
        (extractFinancialData ("the surplus of $185.7m overall".toList)).dollarAmounts ∧
      (∀ c ∈ ("no amounts here".toList : Txt), c ≠ '$') ∧
      (extractFinancialData ("no amounts here".toList)).dollarAmounts = [] :=
  ⟨(c9_extractor ("the ".toList) (" overall".toList)).1, by decide,
    (c9_extractor [] []).2.1 ("no amounts here".toList) (by decide)⟩

end FinChat
